/-
Verification of `functions/index.js` of FinderAI-Prototype: the cosine similarity, the
found-item trigger `checkMatchesOnUpload`, and the reference resolution of
`downloadImageBuffer`.

Numbers are the elements of a linearly ordered field with exact arithmetic, the reals in the
theorems that need the square root; the rounding of binary64 is not modelled. Strings are lists
of Unicode characters; promises are given by the tick at which they settle and their outcome.
-/
import Mathlib

namespace FinderAI

/-! ## Similarity engine: definitions -/

/-- The three accumulators of the loop of `cosineSimilarity`. -/
structure CosineAcc (F : Type) where
  dot : F
  normA : F
  normB : F

/-- One iteration of the loop, lines 110-112, at index `i`. Inside the loop `i` is below both
lengths, so the default of `getD` is never used. -/
def cosineStep {F : Type} [LinearOrderedField F] (vecA vecB : List F)
    (acc : CosineAcc F) (i : Nat) : CosineAcc F :=
  { dot := acc.dot + vecA.getD i 0 * vecB.getD i 0
    normA := acc.normA + vecA.getD i 0 * vecA.getD i 0
    normB := acc.normB + vecB.getD i 0 * vecB.getD i 0 }

/-- The loop `for (let i = 0; i < vecA.length; i++)`, lines 105-113. -/
def cosineLoop {F : Type} [LinearOrderedField F] (vecA vecB : List F) : CosineAcc F :=
  (List.range vecA.length).foldl (cosineStep vecA vecB) { dot := 0, normA := 0, normB := 0 }

/-- The function `cosineSimilarity`, lines 102-117. A vector is `none` when it is `null` or
`undefined`; `sqrt` stands for `Math.sqrt`. The arithmetic is the exact arithmetic of the field
`F`: the rounding, overflow, underflow and `NaN` of the binary64 numbers of JavaScript are not
modelled, so a statement about the value holds of the code up to floating-point error only. -/
def cosineSimilarity {F : Type} [LinearOrderedField F] (sqrt : F → F)
    (vecA vecB : Option (List F)) : F :=
  match vecA, vecB with
  | some a, some b =>
    if a.length ≠ b.length then 0
    else
      let acc := cosineLoop a b
      if acc.normA = 0 ∨ acc.normB = 0 then 0
      else acc.dot / (sqrt acc.normA * sqrt acc.normB)
  | _, _ => 0

/-- The dot product of the spec: the sum of the products of corresponding components. -/
def dotProduct {F : Type} [LinearOrderedField F] (vecA vecB : List F) : F :=
  (List.zipWith (fun x y => x * y) vecA vecB).sum

/-- The squared magnitude of the spec: the sum of the squares of the components. -/
def sumSquares {F : Type} [LinearOrderedField F] (vec : List F) : F :=
  (vec.map (fun x => x * x)).sum

/-! ## Found-item trigger: definitions -/

/-- A document of the `lost_alerts` collection, as read by the trigger. -/
structure LostAlert (F : Type) where
  email : String
  description : String
  embedding : Option (List F)

/-- The data of a newly created `found_items` document. -/
structure FoundItem (F : Type) where
  description : String
  embedding : Option (List F)
  imageUrl : Option String

/-- A document added to the `mail` collection. The `html` template is kept as the values it
interpolates: the alert's description, the similarity, the found item's description and the
optional image URL; the field `to` is `toAddress` here. -/
structure MailDoc (F : Type) where
  toAddress : String
  subject : String
  alertDescription : String
  similarity : F
  itemDescription : String
  imageUrl : Option String

/-- The lines written with `console.log` and `console.error`. -/
inductive LogEntry (F : Type) where
  | noAlerts : LogEntry F
  | matchFound (email : String) (similarity : F) : LogEntry F
  | processed (count : Nat) : LogEntry F
  | errorChecking (error : String) : LogEntry F

/-- The fate of a promise: the tick at which it settles, counted from the moment the `forEach`
has issued the `add` calls, and the rejection reason when it rejects. -/
structure Settled where
  settledAt : Nat
  error : Option String
deriving DecidableEq, Repr

/-- The state built up by the `forEach` over `alertsSnap.docs`: the `add` calls made on the
`mail` collection, the array `emailsToSend` of the promises they returned, and the log. -/
structure MatchState (F : Type) where
  mails : List (MailDoc F)
  emailsToSend : List Settled
  logs : List (LogEntry F)

/-- What one invocation of the trigger did. -/
structure Run (F : Type) where
  alertsRequested : Bool
  mails : List (MailDoc F)
  emailsToSend : List Settled
  logs : List (LogEntry F)
  returnedAt : Nat

/-- The `subject` of every notification, line 159. -/
def mailSubject : String := "We found a potential match for your lost item!"

/-- The body of the `forEach` callback, lines 144-184. `mailAdd n doc` is the promise that the
`n`-th call of `db.collection('mail').add` returns for `doc`. -/
def checkAlert {F : Type} [LinearOrderedField F] (sqrt : F → F) (foundItem : FoundItem F)
    (foundEmbedding : List F) (mailAdd : Nat → MailDoc F → Settled)
    (st : MatchState F) (alert : LostAlert F) : MatchState F :=
  match alert.embedding with
  | none => st
  | some lostEmbedding =>
    let similarity := cosineSimilarity sqrt (some foundEmbedding) (some lostEmbedding)
    if similarity > 0.60 then
      let doc : MailDoc F :=
        { toAddress := alert.email
          subject := mailSubject
          alertDescription := alert.description
          similarity := similarity
          itemDescription := foundItem.description
          imageUrl := foundItem.imageUrl }
      { mails := st.mails ++ [doc]
        emailsToSend := st.emailsToSend ++ [mailAdd st.mails.length doc]
        logs := st.logs ++ [LogEntry.matchFound alert.email similarity] }
    else st

/-- The rejected promise of the list that settles first (the earlier one in the list when two
settle at the same tick). -/
def firstRejection : List Settled → Option Settled
  | [] => none
  | p :: ps =>
    match p.error, firstRejection ps with
    | none, r => r
    | some _, none => some p
    | some _, some q => if p.settledAt ≤ q.settledAt then some p else some q

/-- The promise `Promise.all(ps)`: it rejects as soon as one of `ps` rejects, with that reason,
and otherwise fulfils once every one of `ps` has fulfilled. -/
def promiseAll (ps : List Settled) : Settled :=
  match firstRejection ps with
  | some r => r
  | none => { settledAt := (ps.map (fun p => p.settledAt)).foldl max 0, error := none }

/-- The `try` block, lines 132-188: the run so far and the exception thrown, if any. -/
def matchAlerts {F : Type} [LinearOrderedField F] (sqrt : F → F) (foundItem : FoundItem F)
    (foundEmbedding : List F) (alertsGet : Except String (List (LostAlert F)))
    (mailAdd : Nat → MailDoc F → Settled) : Run F × Option String :=
  match alertsGet with
  | Except.error e =>
    ({ alertsRequested := true, mails := [], emailsToSend := [], logs := [], returnedAt := 0 },
      some e)
  | Except.ok docs =>
    if docs.isEmpty then
      ({ alertsRequested := true, mails := [], emailsToSend := [],
         logs := [LogEntry.noAlerts], returnedAt := 0 }, none)
    else
      let st := docs.foldl (checkAlert sqrt foundItem foundEmbedding mailAdd)
        { mails := [], emailsToSend := [], logs := [] }
      let joined := promiseAll st.emailsToSend
      match joined.error with
      | some e =>
        ({ alertsRequested := true, mails := st.mails, emailsToSend := st.emailsToSend,
           logs := st.logs, returnedAt := joined.settledAt }, some e)
      | none =>
        ({ alertsRequested := true, mails := st.mails, emailsToSend := st.emailsToSend,
           logs := st.logs ++ [LogEntry.processed st.emailsToSend.length],
           returnedAt := joined.settledAt }, none)

/-- The handler of `checkMatchesOnUpload`, lines 121-192. `event` is `event.data` with the
document's data, `alertsGet` the outcome of `db.collection('lost_alerts').get()`. The result is
`Except.error` when the handler's promise rejects. -/
def checkMatchesOnUpload {F : Type} [LinearOrderedField F] (sqrt : F → F)
    (event : Option (FoundItem F)) (alertsGet : Except String (List (LostAlert F)))
    (mailAdd : Nat → MailDoc F → Settled) : Except String (Run F) :=
  match event with
  | none =>
    Except.ok { alertsRequested := false, mails := [], emailsToSend := [], logs := [],
                returnedAt := 0 }
  | some foundItem =>
    match foundItem.embedding with
    | none =>
      Except.ok { alertsRequested := false, mails := [], emailsToSend := [], logs := [],
                  returnedAt := 0 }
    | some foundEmbedding =>
      match matchAlerts sqrt foundItem foundEmbedding alertsGet mailAdd with
      | (run, none) => Except.ok run
      | (run, some e) =>
        Except.ok { run with logs := run.logs ++ [LogEntry.errorChecking e] }

/-- The alerts the spec selects: embedding present and similarity strictly above 0.60. -/
def isMatch {F : Type} [LinearOrderedField F] (sqrt : F → F) (foundEmbedding : List F)
    (alert : LostAlert F) : Bool :=
  match alert.embedding with
  | none => false
  | some lostEmbedding =>
    decide (cosineSimilarity sqrt (some foundEmbedding) (some lostEmbedding) > 0.60)

/-- The notification the spec builds for a selected alert. -/
def notificationFor {F : Type} [LinearOrderedField F] (sqrt : F → F) (foundItem : FoundItem F)
    (foundEmbedding : List F) (alert : LostAlert F) : MailDoc F :=
  { toAddress := alert.email
    subject := mailSubject
    alertDescription := alert.description
    similarity := cosineSimilarity sqrt (some foundEmbedding) alert.embedding
    itemDescription := foundItem.description
    imageUrl := foundItem.imageUrl }

/-! ## Reference resolution: definitions -/

/-- The exceptions `downloadImageBuffer` can throw before it reaches storage: the `URIError`
of `decodeURIComponent`, and `new Error(message)`. -/
inductive JSError where
  | uriError : JSError
  | error (message : String) : JSError
deriving DecidableEq, Repr

/-- The value of a hexadecimal digit, as `ParseHexOctet` reads it. -/
def hexValue (c : Char) : Option Nat :=
  if 48 ≤ c.toNat ∧ c.toNat ≤ 57 then some (c.toNat - 48)
  else if 65 ≤ c.toNat ∧ c.toNat ≤ 70 then some (c.toNat - 55)
  else if 97 ≤ c.toNat ∧ c.toNat ≤ 102 then some (c.toNat - 87)
  else none

/-- The octet written by the two characters at the head of the list. -/
def parseHexOctet : List Char → Option Nat
  | c1 :: c2 :: _ =>
    match hexValue c1, hexValue c2 with
    | some h, some l => some (16 * h + l)
    | _, _ => none
  | _ => none

/-- The octet of an escape `%XX` at the head of the list. -/
def escapedOctet : List Char → Option Nat
  | c :: cs => if c = '%' then parseHexOctet cs else none
  | [] => none

/-- The octets of `n` successive escapes `%XX`. -/
def escapedOctets : Nat → List Char → Option (List Nat)
  | 0, _ => some []
  | n + 1, cs =>
    match escapedOctet cs, escapedOctets n (cs.drop 3) with
    | some b, some bs => some (b :: bs)
    | _, _ => none

def isContinuation (b : Nat) : Bool := decide (128 ≤ b ∧ b < 192)

/-- The code point of a well-formed UTF-8 sequence of two to four octets: continuation octets
in `80..BF`, no overlong form, no surrogate, nothing above `10FFFF`. -/
def utf8CodePoint : List Nat → Option Nat
  | [b0, b1] =>
    if isContinuation b1 ∧ 128 ≤ (b0 - 192) * 64 + (b1 - 128) then
      some ((b0 - 192) * 64 + (b1 - 128))
    else none
  | [b0, b1, b2] =>
    if isContinuation b1 ∧ isContinuation b2 ∧
        2048 ≤ (b0 - 224) * 4096 + (b1 - 128) * 64 + (b2 - 128) ∧
        ¬ (55296 ≤ (b0 - 224) * 4096 + (b1 - 128) * 64 + (b2 - 128) ∧
            (b0 - 224) * 4096 + (b1 - 128) * 64 + (b2 - 128) ≤ 57343) then
      some ((b0 - 224) * 4096 + (b1 - 128) * 64 + (b2 - 128))
    else none
  | [b0, b1, b2, b3] =>
    if isContinuation b1 ∧ isContinuation b2 ∧ isContinuation b3 ∧
        65536 ≤ (b0 - 240) * 262144 + (b1 - 128) * 4096 + (b2 - 128) * 64 + (b3 - 128) ∧
        (b0 - 240) * 262144 + (b1 - 128) * 4096 + (b2 - 128) * 64 + (b3 - 128) ≤ 1114111 then
      some ((b0 - 240) * 262144 + (b1 - 128) * 4096 + (b2 - 128) * 64 + (b3 - 128))
    else none
  | _ => none

/-- The number of octets announced by a leading octet `b ≥ 128` (the count of its leading one
bits), when it is 2, 3 or 4. -/
def sequenceLength (b : Nat) : Option Nat :=
  if b < 192 then none
  else if b < 224 then some 2
  else if b < 240 then some 3
  else if b < 248 then some 4
  else none

/-- Decoding of one escape sequence, given the characters after its `%`: the character it
stands for and the number of characters it takes after the `%`. `none` is a `URIError`. -/
def decodeEscape (cs : List Char) : Option (Char × Nat) :=
  match parseHexOctet cs with
  | none => none
  | some b =>
    if b < 128 then some (Char.ofNat b, 2)
    else
      match sequenceLength b with
      | none => none
      | some n =>
        match escapedOctets (n - 1) (cs.drop 2) with
        | none => none
        | some bs =>
          match utf8CodePoint (b :: bs) with
          | none => none
          | some v => some (Char.ofNat v, 2 + 3 * (n - 1))

/-- The loop of `Decode`: `skip` characters of the list belong to the escape sequence just
decoded and are passed over. -/
def decodeFrom : List Char → Nat → Except JSError (List Char)
  | [], _ => Except.ok []
  | _ :: cs, skip + 1 => decodeFrom cs skip
  | c :: cs, 0 =>
    if c = '%' then
      match decodeEscape cs with
      | none => Except.error JSError.uriError
      | some (ch, taken) =>
        (decodeFrom cs taken).map (fun r => ch :: r)
    else (decodeFrom cs 0).map (fun r => c :: r)

/-- The builtin `decodeURIComponent` on strings without lone surrogates. -/
def decodeURIComponent (s : List Char) : Except JSError (List Char) :=
  decodeFrom s 0

/-- Upper-case hexadecimal digit. -/
def hexDigit (d : Nat) : Char :=
  if d < 10 then Char.ofNat (48 + d) else Char.ofNat (55 + d)

/-- The escape `%XX` of an octet. -/
def escapeOctet (b : Nat) : List Char :=
  ['%', hexDigit (b / 16), hexDigit (b % 16)]

/-- The UTF-8 octets of a character. -/
def utf8Octets (c : Char) : List Nat :=
  if c.toNat < 128 then [c.toNat]
  else if c.toNat < 2048 then [192 + c.toNat / 64, 128 + c.toNat % 64]
  else if c.toNat < 65536 then
    [224 + c.toNat / 4096, 128 + c.toNat / 64 % 64, 128 + c.toNat % 64]
  else
    [240 + c.toNat / 262144, 128 + c.toNat / 4096 % 64, 128 + c.toNat / 64 % 64,
      128 + c.toNat % 64]

/-- The characters `encodeURIComponent` leaves as they are: letters, digits and
`- _ . ! ~ * ' ( )`. -/
def isUnreserved (c : Char) : Bool :=
  decide ((48 ≤ c.toNat ∧ c.toNat ≤ 57) ∨ (65 ≤ c.toNat ∧ c.toNat ≤ 90) ∨
    (97 ≤ c.toNat ∧ c.toNat ≤ 122) ∨ c.toNat ∈ [45, 95, 46, 33, 126, 42, 39, 40, 41])

/-- The builtin `encodeURIComponent` on strings without lone surrogates. -/
def encodeURIComponent : List Char → List Char
  | [] => []
  | c :: cs =>
    if isUnreserved c then c :: encodeURIComponent cs
    else (utf8Octets c).flatMap escapeOctet ++ encodeURIComponent cs

/-- The characters `.` does not match: line feed, carriage return, U+2028 and U+2029. -/
def isLineTerminator (c : Char) : Bool :=
  decide (c.toNat = 10 ∨ c.toNat = 13 ∨ c.toNat = 8232 ∨ c.toNat = 8233)

/-- The part `(.*?)\?` of the pattern, matched at the head of the list: the shortest run of
characters other than line terminators that is followed by `?`. -/
def lazyUntilQuestion : List Char → Option (List Char)
  | [] => none
  | c :: cs =>
    if c = '?' then some []
    else if isLineTerminator c then none
    else
      match lazyUntilQuestion cs with
      | some m => some (c :: m)
      | none => none

/-- The pattern `\/o\/(.*?)\?` matched at the head of the list; the result is group 1. -/
def matchAtHead : List Char → Option (List Char)
  | c1 :: c2 :: c3 :: rest =>
    if c1 = '/' ∧ c2 = 'o' ∧ c3 = '/' then lazyUntilQuestion rest else none
  | _ => none

/-- The result of `decodedUrl.match(/\/o\/(.*?)\?/)`: group 1 of the leftmost match. -/
def regexMatch : List Char → Option (List Char)
  | [] => none
  | c :: cs =>
    match matchAtHead (c :: cs) with
    | some m => some m
    | none => regexMatch cs

/-- Lines 13-17 of `downloadImageBuffer`: the `filePath` handed to `bucket.file`. -/
def filePath (imageUrl : List Char) : Except JSError (List Char) :=
  match decodeURIComponent imageUrl with
  | Except.error e => Except.error e
  | Except.ok decodedUrl =>
    match regexMatch decodedUrl with
    | none => Except.error (JSError.error "Invalid imageUrl format")
    | some m => decodeURIComponent m

/-- The function `downloadImageBuffer`; `download path` is the outcome of
`bucket.file(path).download()`. -/
def downloadImageBuffer {β : Type} (download : List Char → Except JSError β)
    (imageUrl : List Char) : Except JSError β :=
  match filePath imageUrl with
  | Except.error e => Except.error e
  | Except.ok path => download path

/-- Whether `/o/` occurs in the list. -/
def containsMarker : List Char → Bool
  | [] => false
  | c :: cs =>
    (match c :: cs with
      | c1 :: c2 :: c3 :: _ => decide (c1 = '/' ∧ c2 = 'o' ∧ c3 = '/')
      | _ => false) || containsMarker cs

/-! ## Example inputs -/

/-- Example found item of the scenarios: embedding `[1, 0, 0, 0]`. -/
def scenarioItem : FoundItem ℝ :=
  { description := "black wallet", embedding := some [1, 0, 0, 0], imageUrl := none }

/-- Three alerts whose similarities with `scenarioItem` are 0.9, 0.5 and 0.7. -/
def scenarioAlerts : List (LostAlert ℝ) :=
  [ { email := "a@example.com", description := "wallet", embedding := some [9, 3, 3, 1] },
    { email := "b@example.com", description := "keys", embedding := some [1, 1, 1, 1] },
    { email := "c@example.com", description := "purse", embedding := some [7, 7, 1, 1] } ]

/-- Every enqueue fulfils at tick 1. -/
def mailAddOk : Nat → MailDoc ℝ → Settled :=
  fun _ _ => { settledAt := 1, error := none }

/-- Two alerts that both match the found item `[1, 0, 0]`. -/
def twoMatchingAlerts : List (LostAlert ℝ) :=
  [ { email := "a@example.com", description := "wallet", embedding := some [1, 0, 0] },
    { email := "b@example.com", description := "wallet", embedding := some [1, 0, 0] } ]

/-- The first enqueue rejects at tick 1 while the second is still pending until tick 5. -/
def mailAddFirstFails : Nat → MailDoc ℝ → Settled :=
  fun n _ => if n = 0 then { settledAt := 1, error := some "unavailable" }
             else { settledAt := 5, error := none }

/-- The mail document built for a wallet alert of `twoMatchingAlerts`. -/
def walletMail (email : String) : MailDoc ℝ :=
  { toAddress := email, subject := mailSubject, alertDescription := "wallet", similarity := 1,
    itemDescription := "wallet", imageUrl := none }

/-! ## Similarity engine: theorems -/

theorem foldl_cosineStep {F : Type} [LinearOrderedField F] (vecA vecB : List F) (n : Nat) :
    (List.range n).foldl (cosineStep vecA vecB) { dot := 0, normA := 0, normB := 0 } =
      { dot := ∑ i in Finset.range n, vecA.getD i 0 * vecB.getD i 0
        normA := ∑ i in Finset.range n, vecA.getD i 0 * vecA.getD i 0
        normB := ∑ i in Finset.range n, vecB.getD i 0 * vecB.getD i 0 } := by
  induction n with
  | zero => simp
  | succ k ih =>
    rw [List.range_succ, List.foldl_append, ih]
    simp [cosineStep, Finset.sum_range_succ]

theorem sum_range_getD_zipWith {F : Type} [LinearOrderedField F]
    (f : F → F → F) (a b : List F) (h : a.length = b.length) :
    ∑ i in Finset.range a.length, f (a.getD i 0) (b.getD i 0) = (List.zipWith f a b).sum := by
  induction a generalizing b with
  | nil => simp
  | cons x xs ih =>
    cases b with
    | nil => simp at h
    | cons y ys =>
      have h2 : xs.length = ys.length := by simpa using h
      have ih2 := ih ys h2
      simp only [List.getD_eq_getElem?_getD] at ih2
      rw [List.length_cons, Finset.sum_range_succ', ← add_comm]
      simp [ih2]

theorem sum_range_getD_sq {F : Type} [LinearOrderedField F] (a : List F) :
    ∑ i in Finset.range a.length, a.getD i 0 * a.getD i 0 = sumSquares a := by
  have := sum_range_getD_zipWith (fun x y => x * y) a a rfl
  rw [this, sumSquares]
  congr 1
  induction a with
  | nil => rfl
  | cons x xs ih => simp [List.zipWith, ih]

theorem cosineLoop_dot {F : Type} [LinearOrderedField F] (a b : List F) (h : a.length = b.length) :
    (cosineLoop a b).dot = dotProduct a b := by
  rw [cosineLoop, foldl_cosineStep]
  exact sum_range_getD_zipWith _ a b h

theorem cosineLoop_normA {F : Type} [LinearOrderedField F]
    (a b : List F) : (cosineLoop a b).normA = sumSquares a := by
  rw [cosineLoop, foldl_cosineStep]
  exact sum_range_getD_sq a

theorem cosineLoop_normB {F : Type} [LinearOrderedField F]
    (a b : List F) (h : a.length = b.length) :
    (cosineLoop a b).normB = sumSquares b := by
  rw [cosineLoop, foldl_cosineStep, h]
  exact sum_range_getD_sq b

theorem sumSquares_nonneg {F : Type} [LinearOrderedField F] (a : List F) : 0 ≤ sumSquares a := by
  unfold sumSquares
  induction a with
  | nil => simp
  | cons x xs ih => simpa using add_nonneg (mul_self_nonneg x) ih

theorem sumSquares_eq_zero_iff {F : Type} [LinearOrderedField F]
    (a : List F) : sumSquares a = 0 ↔ ∀ x ∈ a, x = 0 := by
  induction a with
  | nil => simp [sumSquares]
  | cons x xs ih =>
    have hx := mul_self_nonneg x
    have hs := sumSquares_nonneg xs
    have e : sumSquares (x :: xs) = x * x + sumSquares xs := by simp [sumSquares]
    rw [e]
    constructor
    · intro h
      have h1 : x * x = 0 := by linarith
      have h2 : sumSquares xs = 0 := by linarith
      intro y hy
      rcases List.mem_cons.mp hy with rfl | hy
      · exact mul_self_eq_zero.mp h1
      · exact ih.mp h2 y hy
    · intro h
      have h1 : x = 0 := h x (by simp)
      have h2 : sumSquares xs = 0 := ih.mpr (fun y hy => h y (by simp [hy]))
      simp [h1, h2]

theorem dotProduct_sq_le {F : Type} [LinearOrderedField F]
    (a b : List F) (h : a.length = b.length) :
    dotProduct a b ^ 2 ≤ sumSquares a * sumSquares b := by
  rw [← cosineLoop_dot a b h, ← cosineLoop_normA a b, ← cosineLoop_normB a b h]
  simp only [cosineLoop, foldl_cosineStep]
  have := Finset.sum_mul_sq_le_sq_mul_sq (Finset.range a.length)
    (fun i => a.getD i 0) (fun i => b.getD i 0)
  simpa [pow_two] using this

theorem cosineSimilarity_comm_aux {F : Type} [LinearOrderedField F]
    (sqrt : F → F) (vecA vecB : Option (List F)) :
    cosineSimilarity sqrt vecA vecB = cosineSimilarity sqrt vecB vecA := by
  cases vecA with
  | none => cases vecB <;> rfl
  | some a =>
    cases vecB with
    | none => rfl
    | some b =>
      by_cases h : a.length = b.length
      · have h2 : b.length = a.length := h.symm
        have e1 : (cosineLoop a b).dot = (cosineLoop b a).dot := by
          rw [cosineLoop_dot a b h, cosineLoop_dot b a h2, dotProduct, dotProduct,
            List.zipWith_comm_of_comm _ (fun x y => mul_comm x y)]
        have e2 : (cosineLoop a b).normA = (cosineLoop b a).normB := by
          rw [cosineLoop_normA, cosineLoop_normB b a h2]
        have e3 : (cosineLoop a b).normB = (cosineLoop b a).normA := by
          rw [cosineLoop_normA, cosineLoop_normB a b h]
        simp only [cosineSimilarity, h2, ne_eq, not_true_eq_false, if_false, e1, e2, e3]
        rw [mul_comm (sqrt (cosineLoop b a).normB)]
        split_ifs with c1 c2 c2
        · rfl
        · exact absurd c1.symm c2
        · exact absurd c2.symm c1
        · rfl
      · have h2 : ¬ b.length = a.length := fun e => h e.symm
        simp [cosineSimilarity, h, h2]

theorem cosineSimilarity_formula {F : Type} [LinearOrderedField F]
    (sqrt : F → F) (a b : List F) (hlen : a.length = b.length)
    (ha : sumSquares a ≠ 0) (hb : sumSquares b ≠ 0) :
    cosineSimilarity sqrt (some a) (some b) =
      dotProduct a b / (sqrt (sumSquares a) * sqrt (sumSquares b)) := by
  simp [cosineSimilarity, hlen, cosineLoop_dot a b hlen, cosineLoop_normA,
    cosineLoop_normB a b hlen, ha, hb]

theorem cosineSimilarity_zero_of_degenerate {F : Type} [LinearOrderedField F]
    (sqrt : F → F) (a b : List F)
    (h : a.length ≠ b.length ∨ sumSquares a = 0 ∨ sumSquares b = 0) :
    cosineSimilarity sqrt (some a) (some b) = 0 := by
  by_cases hlen : a.length = b.length
  · rcases h with h | h | h
    · exact absurd hlen h
    · simp [cosineSimilarity, hlen, cosineLoop_normA, h]
    · simp [cosineSimilarity, hlen, cosineLoop_normB a b hlen, h]
  · simp [cosineSimilarity, hlen]

theorem abs_dotProduct_le (a b : List ℝ) (hlen : a.length = b.length) :
    |dotProduct a b| ≤ Real.sqrt (sumSquares a) * Real.sqrt (sumSquares b) := by
  rw [← Real.sqrt_mul (sumSquares_nonneg a)]
  exact Real.abs_le_sqrt (dotProduct_sq_le a b hlen)

theorem cosineSimilarity_abs_le_one (vecA vecB : Option (List ℝ)) :
    |cosineSimilarity Real.sqrt vecA vecB| ≤ 1 := by
  cases vecA with
  | none => cases vecB <;> simp [cosineSimilarity]
  | some a =>
    cases vecB with
    | none => simp [cosineSimilarity]
    | some b =>
      by_cases hd : a.length ≠ b.length ∨ sumSquares a = 0 ∨ sumSquares b = 0
      · simp [cosineSimilarity_zero_of_degenerate Real.sqrt a b hd]
      · push_neg at hd
        obtain ⟨hlen, ha, hb⟩ := hd
        rw [cosineSimilarity_formula Real.sqrt a b hlen ha hb, abs_div]
        have hpa : 0 < Real.sqrt (sumSquares a) :=
          Real.sqrt_pos.mpr (lt_of_le_of_ne (sumSquares_nonneg a) (Ne.symm ha))
        have hpb : 0 < Real.sqrt (sumSquares b) :=
          Real.sqrt_pos.mpr (lt_of_le_of_ne (sumSquares_nonneg b) (Ne.symm hb))
        have hp := mul_pos hpa hpb
        rw [abs_of_pos hp, div_le_one hp]
        exact abs_dotProduct_le a b hlen

/-- C1: `cosineSimilarity` is a total function (it has a value on every input, so it never
raises) and its value is exactly 0 on every degenerate input: `vecA` absent, `vecB` absent,
lengths that differ, or a vector whose sum of squares is 0 (two empty vectors included). It
holds whatever the number field and the square-root function are. -/
theorem cosineSimilarity_degenerate {F : Type} [LinearOrderedField F] (sqrt : F → F)
    (vecA vecB : Option (List F))
    (h : vecA = none ∨ vecB = none ∨
      ∃ a b, vecA = some a ∧ vecB = some b ∧
        (a.length ≠ b.length ∨ sumSquares a = 0 ∨ sumSquares b = 0)) :
    cosineSimilarity sqrt vecA vecB = 0 := by
  rcases h with h | h | ⟨a, b, ha, hb, h⟩
  · subst h; cases vecB <;> rfl
  · subst h; cases vecA <;> rfl
  · subst ha hb
    exact cosineSimilarity_zero_of_degenerate sqrt a b h

theorem cosineSimilarity_degenerate_witness :
    cosineSimilarity Real.sqrt none (some [1, 2]) = 0 ∧
    cosineSimilarity Real.sqrt (some [1, 2]) none = 0 ∧
    cosineSimilarity Real.sqrt (some [1, 2]) (some [1, 2, 3]) = 0 ∧
    cosineSimilarity Real.sqrt (some [0, 0]) (some [1, 2]) = 0 ∧
    cosineSimilarity Real.sqrt (some [1, 2]) (some [0, 0]) = 0 ∧
    cosineSimilarity Real.sqrt (some []) (some []) = 0 :=
  ⟨cosineSimilarity_degenerate Real.sqrt none (some [1, 2]) (Or.inl rfl),
   cosineSimilarity_degenerate Real.sqrt (some [1, 2]) none (Or.inr (Or.inl rfl)),
   cosineSimilarity_degenerate Real.sqrt (some [1, 2]) (some [1, 2, 3])
     (Or.inr (Or.inr ⟨_, _, rfl, rfl, Or.inl (by decide)⟩)),
   cosineSimilarity_degenerate Real.sqrt (some [0, 0]) (some [1, 2])
     (Or.inr (Or.inr ⟨_, _, rfl, rfl, Or.inr (Or.inl (by simp [sumSquares]))⟩)),
   cosineSimilarity_degenerate Real.sqrt (some [1, 2]) (some [0, 0])
     (Or.inr (Or.inr ⟨_, _, rfl, rfl, Or.inr (Or.inr (by simp [sumSquares]))⟩)),
   cosineSimilarity_degenerate Real.sqrt (some []) (some [])
     (Or.inr (Or.inr ⟨_, _, rfl, rfl, Or.inr (Or.inl (by simp [sumSquares]))⟩))⟩

/-- C2: for present vectors of equal length whose sums of squares are both non-zero,
`cosineSimilarity` is the dot product divided by the product of the square roots of the two
sums of squares, and this value lies in `[-1, 1]` (over the reals). -/
theorem cosineSimilarity_value_and_bounds (a b : List ℝ) (hlen : a.length = b.length)
    (ha : sumSquares a ≠ 0) (hb : sumSquares b ≠ 0) :
    cosineSimilarity Real.sqrt (some a) (some b) =
        dotProduct a b / (Real.sqrt (sumSquares a) * Real.sqrt (sumSquares b)) ∧
      -1 ≤ cosineSimilarity Real.sqrt (some a) (some b) ∧
      cosineSimilarity Real.sqrt (some a) (some b) ≤ 1 :=
  ⟨cosineSimilarity_formula Real.sqrt a b hlen ha hb,
   abs_le.mp (cosineSimilarity_abs_le_one (some a) (some b))⟩

theorem cosineSimilarity_value_and_bounds_witness :
    cosineSimilarity Real.sqrt (some [1, 0]) (some [3, 4]) =
        dotProduct [1, 0] [3, 4] / (Real.sqrt (sumSquares [1, 0]) * Real.sqrt (sumSquares [3, 4])) ∧
      -1 ≤ cosineSimilarity Real.sqrt (some [1, 0]) (some [3, 4]) ∧
      cosineSimilarity Real.sqrt (some [1, 0]) (some [3, 4]) ≤ 1 :=
  cosineSimilarity_value_and_bounds [1, 0] [3, 4] rfl (by simp [sumSquares])
    (by simp [sumSquares]; norm_num)

/-- C5: for every vector with a non-zero component, `cosineSimilarity(A, A)` is exactly 1
(over the reals). -/
theorem cosineSimilarity_self (a : List ℝ) (h : ∃ x ∈ a, x ≠ 0) :
    cosineSimilarity Real.sqrt (some a) (some a) = 1 := by
  have hne : sumSquares a ≠ 0 := by
    intro h0
    obtain ⟨x, hx, hx0⟩ := h
    exact hx0 ((sumSquares_eq_zero_iff a).mp h0 x hx)
  rw [cosineSimilarity_formula Real.sqrt a a rfl hne hne,
    Real.mul_self_sqrt (sumSquares_nonneg a)]
  have : dotProduct a a = sumSquares a := by
    rw [← cosineLoop_dot a a rfl, ← cosineLoop_normA a a]
    simp only [cosineLoop, foldl_cosineStep]
  rw [this]
  exact div_self hne

theorem cosineSimilarity_self_witness :
    cosineSimilarity Real.sqrt (some [3, 0, -4]) (some [3, 0, -4]) = 1 :=
  cosineSimilarity_self [3, 0, -4] ⟨3, by simp, by norm_num⟩

/-- C6: `cosineSimilarity(A, B) = cosineSimilarity(B, A)` for all inputs, in particular for all
equal-length non-zero vectors, whatever the number field and the square-root function are. -/
theorem cosineSimilarity_comm {F : Type} [LinearOrderedField F] (sqrt : F → F)
    (vecA vecB : Option (List F)) :
    cosineSimilarity sqrt vecA vecB = cosineSimilarity sqrt vecB vecA :=
  cosineSimilarity_comm_aux sqrt vecA vecB

/-! ## Found-item trigger: theorems -/

theorem isMatch_iff {F : Type} [LinearOrderedField F]
    (sqrt : F → F) (foundEmbedding : List F) (alert : LostAlert F) :
    isMatch sqrt foundEmbedding alert = true ↔
      ∃ l, alert.embedding = some l ∧
        cosineSimilarity sqrt (some foundEmbedding) (some l) > 0.60 := by
  unfold isMatch
  cases h : alert.embedding with
  | none => simp
  | some l => simp

theorem checkAlert_of_isMatch {F : Type} [LinearOrderedField F]
    (sqrt : F → F) (foundItem : FoundItem F) (foundEmbedding : List F)
    (mailAdd : Nat → MailDoc F → Settled) (st : MatchState F) (alert : LostAlert F)
    (h : isMatch sqrt foundEmbedding alert = true) :
    checkAlert sqrt foundItem foundEmbedding mailAdd st alert =
      { mails := st.mails ++ [notificationFor sqrt foundItem foundEmbedding alert]
        emailsToSend := st.emailsToSend ++
          [mailAdd st.mails.length (notificationFor sqrt foundItem foundEmbedding alert)]
        logs := st.logs ++ [LogEntry.matchFound alert.email
          (cosineSimilarity sqrt (some foundEmbedding) alert.embedding)] } := by
  obtain ⟨l, hl, hgt⟩ := (isMatch_iff sqrt foundEmbedding alert).mp h
  simp only [checkAlert, notificationFor, hl, hgt, if_true]

theorem checkAlert_of_not_isMatch {F : Type} [LinearOrderedField F]
    (sqrt : F → F) (foundItem : FoundItem F)
    (foundEmbedding : List F) (mailAdd : Nat → MailDoc F → Settled) (st : MatchState F)
    (alert : LostAlert F) (h : isMatch sqrt foundEmbedding alert = false) :
    checkAlert sqrt foundItem foundEmbedding mailAdd st alert = st := by
  unfold isMatch at h
  unfold checkAlert
  cases hl : alert.embedding with
  | none => rfl
  | some l =>
    rw [hl] at h
    have hgt : ¬ cosineSimilarity sqrt (some foundEmbedding) (some l) > 0.60 := by
      simpa using h
    simp only [hgt, if_false]

theorem foldl_checkAlert_mails {F : Type} [LinearOrderedField F]
    (sqrt : F → F) (foundItem : FoundItem F) (foundEmbedding : List F)
    (mailAdd : Nat → MailDoc F → Settled) (docs : List (LostAlert F)) (st : MatchState F) :
    (docs.foldl (checkAlert sqrt foundItem foundEmbedding mailAdd) st).mails =
      st.mails ++ (docs.filter (isMatch sqrt foundEmbedding)).map
        (notificationFor sqrt foundItem foundEmbedding) := by
  induction docs generalizing st with
  | nil => simp
  | cons d ds ih =>
    rw [List.foldl_cons, ih]
    cases h : isMatch sqrt foundEmbedding d with
    | true => simp [checkAlert_of_isMatch sqrt foundItem foundEmbedding mailAdd st d h, h]
    | false => simp [checkAlert_of_not_isMatch sqrt foundItem foundEmbedding mailAdd st d h, h]

theorem foldl_checkAlert_promises {F : Type} [LinearOrderedField F]
    (sqrt : F → F) (foundItem : FoundItem F)
    (foundEmbedding : List F) (mailAdd : Nat → MailDoc F → Settled) (docs : List (LostAlert F))
    (st : MatchState F)
    (hst : st.emailsToSend = st.mails.enum.map (fun p => mailAdd p.1 p.2)) :
    (docs.foldl (checkAlert sqrt foundItem foundEmbedding mailAdd) st).emailsToSend =
      (docs.foldl (checkAlert sqrt foundItem foundEmbedding mailAdd) st).mails.enum.map
        (fun p => mailAdd p.1 p.2) := by
  induction docs generalizing st with
  | nil => simpa using hst
  | cons d ds ih =>
    rw [List.foldl_cons]
    apply ih
    cases h : isMatch sqrt foundEmbedding d with
    | true =>
      rw [checkAlert_of_isMatch sqrt foundItem foundEmbedding mailAdd st d h]
      simp [List.enum_append, hst, List.enumFrom]
    | false =>
      rw [checkAlert_of_not_isMatch sqrt foundItem foundEmbedding mailAdd st d h]
      exact hst

theorem firstRejection_none_iff (ps : List Settled) :
    firstRejection ps = none ↔ ∀ p ∈ ps, p.error = none := by
  induction ps with
  | nil => simp [firstRejection]
  | cons p ps ih =>
    cases hp : p.error with
    | none => simp [firstRejection, hp, ih]
    | some e =>
      cases hr : firstRejection ps with
      | none => simp [firstRejection, hp, hr]
      | some q =>
        by_cases hle : p.settledAt ≤ q.settledAt <;> simp [firstRejection, hp, hr, hle]

theorem le_foldl_max (l : List Nat) (m : Nat) :
    m ≤ l.foldl max m ∧ ∀ x ∈ l, x ≤ l.foldl max m := by
  induction l generalizing m with
  | nil => simp
  | cons y ys ih =>
    obtain ⟨h1, h2⟩ := ih (max m y)
    refine ⟨le_trans (le_max_left m y) h1, ?_⟩
    intro x hx
    rcases List.mem_cons.mp hx with rfl | hx
    · exact le_trans (le_max_right m x) h1
    · exact h2 x hx

/-- When no enqueue fails, `Promise.all` settles after every enqueue has settled. -/
theorem promiseAll_waits_when_all_fulfil (ps : List Settled) (h : ∀ p ∈ ps, p.error = none) :
    (promiseAll ps).error = none ∧ ∀ p ∈ ps, p.settledAt ≤ (promiseAll ps).settledAt := by
  have hn := (firstRejection_none_iff ps).mpr h
  simp only [promiseAll, hn, true_and]
  intro p hp
  exact (le_foldl_max (ps.map (fun p => p.settledAt)) 0).2 _ (List.mem_map_of_mem _ hp)

/-- The handler's promise never rejects, whatever the alert load and the enqueues do. -/
theorem checkMatchesOnUpload_never_raises {F : Type} [LinearOrderedField F]
    (sqrt : F → F) (event : Option (FoundItem F))
    (alertsGet : Except String (List (LostAlert F))) (mailAdd : Nat → MailDoc F → Settled) :
    ∃ run, checkMatchesOnUpload sqrt event alertsGet mailAdd = Except.ok run := by
  cases event with
  | none => exact ⟨_, rfl⟩
  | some foundItem =>
    cases h : foundItem.embedding with
    | none =>
      simp only [checkMatchesOnUpload, h]
      exact ⟨_, rfl⟩
    | some e =>
      simp only [checkMatchesOnUpload, h]
      rcases matchAlerts sqrt foundItem e alertsGet mailAdd with ⟨run, _ | err⟩
      · exact ⟨_, rfl⟩
      · exact ⟨_, rfl⟩

theorem matchAlerts_ok {F : Type} [LinearOrderedField F]
    (sqrt : F → F) (foundItem : FoundItem F) (foundEmbedding : List F)
    (alerts : List (LostAlert F)) (mailAdd : Nat → MailDoc F → Settled) :
    (matchAlerts sqrt foundItem foundEmbedding (Except.ok alerts) mailAdd).1.mails =
        (alerts.filter (isMatch sqrt foundEmbedding)).map
          (notificationFor sqrt foundItem foundEmbedding) ∧
      (matchAlerts sqrt foundItem foundEmbedding (Except.ok alerts) mailAdd).1.emailsToSend =
        (matchAlerts sqrt foundItem foundEmbedding (Except.ok alerts) mailAdd).1.mails.enum.map
          (fun p => mailAdd p.1 p.2) := by
  unfold matchAlerts
  by_cases hemp : alerts.isEmpty = true
  · have : alerts = [] := List.isEmpty_iff.mp hemp
    subst this
    simp
  · simp only [hemp]
    have hm := foldl_checkAlert_mails sqrt foundItem foundEmbedding mailAdd alerts
      { mails := [], emailsToSend := [], logs := [] }
    have hp := foldl_checkAlert_promises sqrt foundItem foundEmbedding mailAdd alerts
      { mails := [], emailsToSend := [], logs := [] } (by simp)
    simp only [List.nil_append] at hm
    simp only [Bool.false_eq_true, if_false]
    split <;> exact ⟨hm, hp⟩

/-- Every document the trigger adds to the mail queue carries a cosine similarity above 0.60. -/
theorem checkMatchesOnUpload_mail_similarity {F : Type} [LinearOrderedField F] (sqrt : F → F)
    (event : Option (FoundItem F)) (alertsGet : Except String (List (LostAlert F)))
    (mailAdd : Nat → MailDoc F → Settled) (run : Run F)
    (hrun : checkMatchesOnUpload sqrt event alertsGet mailAdd = Except.ok run)
    (m : MailDoc F) (hm : m ∈ run.mails) :
    ∃ e l, m.similarity = cosineSimilarity sqrt (some e) (some l) ∧ m.similarity > 0.60 := by
  cases event with
  | none =>
    simp only [checkMatchesOnUpload, Except.ok.injEq] at hrun
    subst hrun
    simp at hm
  | some foundItem =>
    cases h : foundItem.embedding with
    | none =>
      simp only [checkMatchesOnUpload, h, Except.ok.injEq] at hrun
      subst hrun
      simp at hm
    | some e =>
      have key : ∀ r : Run F, r.mails = (matchAlerts sqrt foundItem e alertsGet mailAdd).1.mails →
          m ∈ r.mails →
          ∃ e l, m.similarity = cosineSimilarity sqrt (some e) (some l) ∧ m.similarity > 0.60 := by
        intro r hr hmem
        rw [hr] at hmem
        cases alertsGet with
        | error err => simp [matchAlerts] at hmem
        | ok alerts =>
          rw [(matchAlerts_ok sqrt foundItem e alerts mailAdd).1] at hmem
          obtain ⟨alert, hal, rfl⟩ := List.mem_map.mp hmem
          have hmatch := (List.mem_filter.mp hal).2
          obtain ⟨l, hl, hgt⟩ := (isMatch_iff sqrt e alert).mp hmatch
          exact ⟨e, l, by simp [notificationFor, hl], by simpa [notificationFor, hl] using hgt⟩
      simp only [checkMatchesOnUpload, h] at hrun
      rcases hres : matchAlerts sqrt foundItem e alertsGet mailAdd with ⟨r0, _ | err⟩
      · rw [hres] at hrun key
        simp only [Except.ok.injEq] at hrun
        subst hrun
        exact key _ rfl hm
      · rw [hres] at hrun key
        simp only [Except.ok.injEq] at hrun
        subst hrun
        exact key _ rfl hm

theorem sqrt_hundred : Real.sqrt 100 = 10 := by
  rw [show (100 : ℝ) = 10 ^ 2 by norm_num]
  exact Real.sqrt_sq (by norm_num)

theorem scenario_similarities :
    cosineSimilarity Real.sqrt (some [1, 0, 0, 0]) (some [9, 3, 3, 1]) = 0.9 ∧
    cosineSimilarity Real.sqrt (some [1, 0, 0, 0]) (some [1, 1, 1, 1]) = 0.5 ∧
    cosineSimilarity Real.sqrt (some [1, 0, 0, 0]) (some [7, 7, 1, 1]) = 0.7 := by
  have h4 : Real.sqrt 4 = 2 := by
    rw [show (4 : ℝ) = 2 ^ 2 by norm_num]
    exact Real.sqrt_sq (by norm_num)
  refine ⟨?_, ?_, ?_⟩
  · rw [cosineSimilarity_formula Real.sqrt [1, 0, 0, 0] [9, 3, 3, 1] (by rfl)
      (by simp [sumSquares]) (by simp [sumSquares]; norm_num)]
    simp only [dotProduct, sumSquares, List.zipWith, List.map, List.sum_cons, List.sum_nil]
    norm_num [sqrt_hundred]
  · rw [cosineSimilarity_formula Real.sqrt [1, 0, 0, 0] [1, 1, 1, 1] (by rfl)
      (by simp [sumSquares]) (by simp [sumSquares]; norm_num)]
    simp only [dotProduct, sumSquares, List.zipWith, List.map, List.sum_cons, List.sum_nil]
    norm_num [h4]
  · rw [cosineSimilarity_formula Real.sqrt [1, 0, 0, 0] [7, 7, 1, 1] (by rfl)
      (by simp [sumSquares]) (by simp [sumSquares]; norm_num)]
    simp only [dotProduct, sumSquares, List.zipWith, List.map, List.sum_cons, List.sum_nil]
    norm_num [sqrt_hundred]

/-- At the threshold: the pair `[1, 0]`, `[3, 4]` has similarity exactly 0.6 and the alert is
not selected. -/
theorem threshold_boundary_not_selected :
    cosineSimilarity Real.sqrt (some [1, 0]) (some [3, 4]) = 0.60 ∧
    isMatch Real.sqrt [1, 0]
      { email := "d@example.com", description := "bag", embedding := some [3, 4] } = false := by
  have h25 : Real.sqrt 25 = 5 := by
    rw [show (25 : ℝ) = 5 ^ 2 by norm_num]
    exact Real.sqrt_sq (by norm_num)
  have hv : cosineSimilarity Real.sqrt (some [1, 0]) (some [3, 4]) = 0.60 := by
    rw [cosineSimilarity_formula Real.sqrt [1, 0] [3, 4] (by rfl)
      (by simp [sumSquares]) (by simp [sumSquares]; norm_num)]
    simp only [dotProduct, sumSquares, List.zipWith, List.map, List.sum_cons, List.sum_nil]
    norm_num [h25]
  refine ⟨hv, ?_⟩
  simp only [isMatch, hv]
  norm_num

/-- C4: in the found-item trigger, for a found item with a present embedding and any list of
loaded alerts, the documents added to the mail queue are exactly the notifications of the alerts
whose embedding is present and whose similarity with the found embedding is strictly above 0.60,
one each, in alert order, addressed to the alert's email, whatever the enqueues' outcomes; an
alert is selected iff its embedding is present and its similarity is strictly above 0.60. -/
theorem checkMatchesOnUpload_notifies {F : Type} [LinearOrderedField F] (sqrt : F → F)
    (foundItem : FoundItem F) (foundEmbedding : List F)
    (h : foundItem.embedding = some foundEmbedding) (alerts : List (LostAlert F))
    (mailAdd : Nat → MailDoc F → Settled) :
    ∃ run, checkMatchesOnUpload sqrt (some foundItem) (Except.ok alerts) mailAdd = Except.ok run ∧
      run.mails = (alerts.filter (isMatch sqrt foundEmbedding)).map
        (notificationFor sqrt foundItem foundEmbedding) ∧
      run.mails.map MailDoc.toAddress =
        (alerts.filter (isMatch sqrt foundEmbedding)).map LostAlert.email ∧
      run.emailsToSend = run.mails.enum.map (fun p => mailAdd p.1 p.2) ∧
      ∀ alert : LostAlert F, isMatch sqrt foundEmbedding alert = true ↔
        ∃ l, alert.embedding = some l ∧
          cosineSimilarity sqrt (some foundEmbedding) (some l) > 0.60 := by
  obtain ⟨hm, hp⟩ := matchAlerts_ok sqrt foundItem foundEmbedding alerts mailAdd
  have hto : ((alerts.filter (isMatch sqrt foundEmbedding)).map
      (notificationFor sqrt foundItem foundEmbedding)).map MailDoc.toAddress =
      (alerts.filter (isMatch sqrt foundEmbedding)).map LostAlert.email := by
    simp [List.map_map, Function.comp_def, notificationFor]
  simp only [checkMatchesOnUpload, h]
  rcases hres : matchAlerts sqrt foundItem foundEmbedding (Except.ok alerts) mailAdd
    with ⟨run, _ | err⟩
  · rw [hres] at hm hp
    exact ⟨run, rfl, hm, by rw [hm, hto], hp, isMatch_iff sqrt foundEmbedding⟩
  · rw [hres] at hm hp
    exact ⟨_, rfl, hm, by rw [show run.mails = _ from hm, hto], hp,
      isMatch_iff sqrt foundEmbedding⟩

theorem checkMatchesOnUpload_notifies_witness :
    scenarioItem.embedding = some [1, 0, 0, 0] ∧
    ∃ run, checkMatchesOnUpload Real.sqrt (some scenarioItem) (Except.ok scenarioAlerts)
        mailAddOk = Except.ok run ∧
      run.mails.map MailDoc.toAddress = ["a@example.com", "c@example.com"] := by
  refine ⟨rfl, ?_⟩
  obtain ⟨run, hrun, _, hto, _, _⟩ :=
    checkMatchesOnUpload_notifies Real.sqrt scenarioItem [1, 0, 0, 0] rfl scenarioAlerts mailAddOk
  refine ⟨run, hrun, ?_⟩
  obtain ⟨s1, s2, s3⟩ := scenario_similarities
  rw [hto]
  have m1 : isMatch Real.sqrt [1, 0, 0, 0]
      { email := "a@example.com", description := "wallet", embedding := some [9, 3, 3, 1] }
      = true := by
    simp only [isMatch, s1]; norm_num
  have m2 : isMatch Real.sqrt [1, 0, 0, 0]
      { email := "b@example.com", description := "keys", embedding := some [1, 1, 1, 1] }
      = false := by
    simp only [isMatch, s2]; norm_num
  have m3 : isMatch Real.sqrt [1, 0, 0, 0]
      { email := "c@example.com", description := "purse", embedding := some [7, 7, 1, 1] }
      = true := by
    simp only [isMatch, s3]; norm_num
  simp [scenarioAlerts, List.filter, m1, m2, m3]

/-- C8: in the found-item trigger, when the found item's embedding is absent the handler ends
at once: the alert set is not requested, nothing is enqueued, nothing is logged and no error is
raised, whatever the database would have answered. -/
theorem checkMatchesOnUpload_without_embedding {F : Type} [LinearOrderedField F] (sqrt : F → F)
    (foundItem : FoundItem F) (h : foundItem.embedding = none)
    (alertsGet : Except String (List (LostAlert F))) (mailAdd : Nat → MailDoc F → Settled) :
    checkMatchesOnUpload sqrt (some foundItem) alertsGet mailAdd =
      Except.ok { alertsRequested := false, mails := [], emailsToSend := [], logs := [],
                  returnedAt := 0 } := by
  simp only [checkMatchesOnUpload, h]

theorem checkMatchesOnUpload_without_embedding_witness :
    checkMatchesOnUpload Real.sqrt
        (some { description := "black wallet", embedding := none, imageUrl := none })
        (Except.ok scenarioAlerts) mailAddOk =
      Except.ok { alertsRequested := false, mails := [], emailsToSend := [], logs := [],
                  returnedAt := 0 } :=
  checkMatchesOnUpload_without_embedding Real.sqrt
    { description := "black wallet", embedding := none, imageUrl := none } rfl
    (Except.ok scenarioAlerts) mailAddOk

/-- C9: in the found-item trigger, when loading the alert set fails the handler still
completes normally (its promise does not reject) and nothing has been enqueued: no document is
added to the mail queue and no enqueue promise exists; when the load was attempted, the only
trace is the logged error. -/
theorem checkMatchesOnUpload_load_failure {F : Type} [LinearOrderedField F] (sqrt : F → F)
    (event : Option (FoundItem F)) (e : String) (mailAdd : Nat → MailDoc F → Settled) :
    ∃ run, checkMatchesOnUpload sqrt event (Except.error e) mailAdd = Except.ok run ∧
      run.mails = [] ∧ run.emailsToSend = [] ∧
      (run.alertsRequested = true → run.logs = [LogEntry.errorChecking e]) := by
  cases event with
  | none => exact ⟨_, rfl, rfl, rfl, by simp⟩
  | some foundItem =>
    cases h : foundItem.embedding with
    | none =>
      simp only [checkMatchesOnUpload, h]
      exact ⟨_, rfl, rfl, rfl, by simp⟩
    | some foundEmbedding =>
      simp only [checkMatchesOnUpload, h, matchAlerts]
      exact ⟨_, rfl, rfl, rfl, by simp⟩

theorem similarity_unit_self : cosineSimilarity Real.sqrt (some [1, 0, 0]) (some [1, 0, 0]) = 1 := by
  simp [cosineSimilarity, cosineLoop, cosineStep, List.range, List.range.loop]

/-- C10, at the failing input: both alerts match and both enqueues are issued, the first
rejects at tick 1, and the handler returns at tick 1 (without raising) although the second
enqueue settles only at tick 5, so the handler has not awaited every enqueue. -/
theorem checkMatchesOnUpload_returns_before_pending_enqueue :
    checkMatchesOnUpload Real.sqrt
        (some { description := "wallet", embedding := some [1, 0, 0], imageUrl := none })
        (Except.ok twoMatchingAlerts) mailAddFirstFails =
      Except.ok
        { alertsRequested := true
          mails := [walletMail "a@example.com", walletMail "b@example.com"]
          emailsToSend :=
            [{ settledAt := 1, error := some "unavailable" }, { settledAt := 5, error := none }]
          logs := [LogEntry.matchFound "a@example.com" 1, LogEntry.matchFound "b@example.com" 1,
            LogEntry.errorChecking "unavailable"]
          returnedAt := 1 } ∧
      ¬ ∀ p ∈ [({ settledAt := 1, error := some "unavailable" } : Settled),
          { settledAt := 5, error := none }], p.settledAt ≤ 1 := by
  have hgt : (1 : ℝ) > 0.60 := by norm_num
  refine ⟨?_, by simp⟩
  simp only [checkMatchesOnUpload, matchAlerts, twoMatchingAlerts, List.isEmpty_cons,
    Bool.false_eq_true, if_false, List.foldl_cons, List.foldl_nil, checkAlert,
    similarity_unit_self, hgt, if_true, List.nil_append, List.length_nil, List.cons_append,
    List.length_cons, mailAddFirstFails, promiseAll, firstRejection, walletMail]
  rfl

/-- C3, counterexample: the well-formed pair `[1]`, `[-1]` (equal length, both of magnitude 1)
has similarity `-1`, which is not in `[0, 1]`. -/
theorem cosineSimilarity_negative_score :
    ([1] : List ℝ).length = ([-1] : List ℝ).length ∧
    sumSquares ([1] : List ℝ) ≠ 0 ∧ sumSquares ([-1] : List ℝ) ≠ 0 ∧
    cosineSimilarity Real.sqrt (some [1]) (some [-1]) = -1 ∧
    ¬ (0 ≤ cosineSimilarity Real.sqrt (some [1]) (some [-1]) ∧
        cosineSimilarity Real.sqrt (some [1]) (some [-1]) ≤ 1) := by
  have hv : cosineSimilarity Real.sqrt (some [1]) (some [-1]) = -1 := by
    simp [cosineSimilarity, cosineLoop, cosineStep, List.range, List.range.loop]
  refine ⟨rfl, by simp [sumSquares], by simp [sumSquares], hv, ?_⟩
  rw [hv]
  norm_num

/-- C3, amended: in exact real arithmetic (the numbers are reals and `Math.sqrt` is the real
square root; the rounding of binary64 is not part of this statement), for every well-formed
vector pair (equal length, both magnitudes non-zero) the similarity is in `[-1, 1]`, and it is
non-negative exactly when the dot product is. Every score the trigger attaches to a match is
strictly above 0.60, hence non-negative, by the threshold test alone, for any ordered field
and any square-root function; in exact real arithmetic it is also at most 1. -/
theorem similarity_score_range {F : Type} [LinearOrderedField F] (sqrt : F → F)
    (event : Option (FoundItem F)) (alertsGet : Except String (List (LostAlert F)))
    (mailAdd : Nat → MailDoc F → Settled) (run : Run F)
    (hrun : checkMatchesOnUpload sqrt event alertsGet mailAdd = Except.ok run)
    (a b : List ℝ) (hlen : a.length = b.length)
    (ha : sumSquares a ≠ 0) (hb : sumSquares b ≠ 0)
    (eventR : Option (FoundItem ℝ)) (alertsGetR : Except String (List (LostAlert ℝ)))
    (mailAddR : Nat → MailDoc ℝ → Settled) (runR : Run ℝ)
    (hrunR : checkMatchesOnUpload Real.sqrt eventR alertsGetR mailAddR = Except.ok runR) :
    (∀ m ∈ run.mails, 0.60 < m.similarity ∧ 0 ≤ m.similarity) ∧
    (-1 ≤ cosineSimilarity Real.sqrt (some a) (some b) ∧
      cosineSimilarity Real.sqrt (some a) (some b) ≤ 1 ∧
      (0 ≤ cosineSimilarity Real.sqrt (some a) (some b) ↔ 0 ≤ dotProduct a b)) ∧
    ∀ m ∈ runR.mails, 0.60 < m.similarity ∧ m.similarity ≤ 1 := by
  have hb1 := abs_le.mp (cosineSimilarity_abs_le_one (some a) (some b))
  have hpa : 0 < Real.sqrt (sumSquares a) :=
    Real.sqrt_pos.mpr (lt_of_le_of_ne (sumSquares_nonneg a) (Ne.symm ha))
  have hpb : 0 < Real.sqrt (sumSquares b) :=
    Real.sqrt_pos.mpr (lt_of_le_of_ne (sumSquares_nonneg b) (Ne.symm hb))
  refine ⟨?_, ⟨hb1.1, hb1.2, ?_⟩, ?_⟩
  · intro m hm
    obtain ⟨e, l, _, hgt⟩ :=
      checkMatchesOnUpload_mail_similarity sqrt event alertsGet mailAdd run hrun m hm
    have h0 : (0 : F) ≤ 0.60 := by norm_num
    exact ⟨hgt, le_trans h0 (le_of_lt hgt)⟩
  · rw [cosineSimilarity_formula Real.sqrt a b hlen ha hb]
    rw [le_div_iff₀ (mul_pos hpa hpb), zero_mul]
  · intro m hm
    obtain ⟨e, l, heq, hgt⟩ :=
      checkMatchesOnUpload_mail_similarity Real.sqrt eventR alertsGetR mailAddR runR hrunR m hm
    have hle : m.similarity ≤ 1 := by
      rw [heq]
      exact (abs_le.mp (cosineSimilarity_abs_le_one (some e) (some l))).2
    exact ⟨hgt, hle⟩

theorem similarity_score_range_witness :
    (∀ m ∈ ([walletMail "a@example.com", walletMail "b@example.com"] : List (MailDoc ℝ)),
      0.60 < m.similarity ∧ 0 ≤ m.similarity) ∧
    (-1 ≤ cosineSimilarity Real.sqrt (some [1]) (some [-1]) ∧
      cosineSimilarity Real.sqrt (some [1]) (some [-1]) ≤ 1 ∧
      (0 ≤ cosineSimilarity Real.sqrt (some [1]) (some [-1]) ↔
        0 ≤ dotProduct ([1] : List ℝ) [-1])) ∧
    ∀ m ∈ ([walletMail "a@example.com", walletMail "b@example.com"] : List (MailDoc ℝ)),
      0.60 < m.similarity ∧ m.similarity ≤ 1 :=
  have hrun : checkMatchesOnUpload Real.sqrt
      (some { description := "wallet", embedding := some [1, 0, 0], imageUrl := none })
      (Except.ok twoMatchingAlerts) mailAddFirstFails =
      Except.ok
        { alertsRequested := true
          mails := [walletMail "a@example.com", walletMail "b@example.com"]
          emailsToSend :=
            [{ settledAt := 1, error := some "unavailable" }, { settledAt := 5, error := none }]
          logs := [LogEntry.matchFound "a@example.com" 1, LogEntry.matchFound "b@example.com" 1,
            LogEntry.errorChecking "unavailable"]
          returnedAt := 1 } := by
    have hgt : (1 : ℝ) > 0.60 := by norm_num
    simp only [checkMatchesOnUpload, matchAlerts, twoMatchingAlerts, List.isEmpty_cons,
      Bool.false_eq_true, if_false, List.foldl_cons, List.foldl_nil, checkAlert,
      similarity_unit_self, hgt, if_true, List.nil_append, List.length_nil, List.cons_append,
      List.length_cons, mailAddFirstFails, promiseAll, firstRejection, walletMail]
    rfl
  similarity_score_range Real.sqrt _ _ _ _ hrun [1] [-1] rfl (by simp [sumSquares])
    (by simp [sumSquares]) _ _ _ _ hrun

/-! ## Reference resolution: theorems -/

theorem hexValue_hexDigit (d : Nat) (h : d < 16) : hexValue (hexDigit d) = some d := by
  interval_cases d <;> rfl

theorem parseHexOctet_hexDigits (b : Nat) (h : b < 256) (rest : List Char) :
    parseHexOctet (hexDigit (b / 16) :: hexDigit (b % 16) :: rest) = some b := by
  have h1 : b / 16 < 16 := by omega
  have h2 : b % 16 < 16 := by omega
  simp only [parseHexOctet, hexValue_hexDigit _ h1, hexValue_hexDigit _ h2]
  congr 1
  omega

theorem escapedOctet_escapeOctet (b : Nat) (h : b < 256) (rest : List Char) :
    escapedOctet (escapeOctet b ++ rest) = some b := by
  simp [escapedOctet, escapeOctet, parseHexOctet_hexDigits b h]

theorem char_toNat_valid (c : Char) :
    c.toNat < 55296 ∨ (57343 < c.toNat ∧ c.toNat < 1114112) := c.valid

theorem decodeEscape_utf8Octets (c : Char) (rest : List Char) :
    decodeEscape (((utf8Octets c).flatMap escapeOctet).tail ++ rest) =
      some (c, ((utf8Octets c).flatMap escapeOctet).tail.length) := by
  have hv := char_toNat_valid c
  have hc : Char.ofNat c.toNat = c := Char.ofNat_toNat c
  unfold utf8Octets
  by_cases h1 : c.toNat < 128
  · simp only [h1, if_true, List.flatMap_cons, List.flatMap_nil, List.append_nil, escapeOctet,
      List.tail_cons, List.cons_append, List.nil_append, decodeEscape,
      parseHexOctet_hexDigits c.toNat (by omega), hc, List.length_cons, List.length_nil]
  · by_cases h2 : c.toNat < 2048
    · have hb0 : 192 + c.toNat / 64 < 256 := by omega
      have hb1 : 128 + c.toNat % 64 < 256 := by omega
      have hs : sequenceLength (192 + c.toNat / 64) = some 2 := by
        simp only [sequenceLength]
        rw [if_neg (by omega), if_pos (by omega)]
      have hu : utf8CodePoint [192 + c.toNat / 64, 128 + c.toNat % 64] = some c.toNat := by
        have e : (192 + c.toNat / 64 - 192) * 64 + (128 + c.toNat % 64 - 128) = c.toNat := by
          omega
        simp only [utf8CodePoint, isContinuation, e]
        rw [if_pos (by simp; omega)]
      have he := escapedOctet_escapeOctet (128 + c.toNat % 64) hb1 rest
      simp only [escapeOctet, List.cons_append, List.nil_append] at he
      simp only [h1, h2, if_true, if_false, List.flatMap_cons, List.flatMap_nil, List.append_nil,
        escapeOctet, List.tail_cons, List.cons_append, List.nil_append, decodeEscape,
        parseHexOctet_hexDigits _ hb0, hs, List.drop_succ_cons, List.drop_zero, escapedOctets,
        he, hu, hc, List.length_cons, List.length_nil]
      rw [if_neg (by omega)]
    · by_cases h3 : c.toNat < 65536
      · have hb0 : 224 + c.toNat / 4096 < 256 := by omega
        have hb1 : 128 + c.toNat / 64 % 64 < 256 := by omega
        have hb2 : 128 + c.toNat % 64 < 256 := by omega
        have hs : sequenceLength (224 + c.toNat / 4096) = some 3 := by
          simp only [sequenceLength]
          rw [if_neg (by omega), if_neg (by omega), if_pos (by omega)]
        have hu : utf8CodePoint [224 + c.toNat / 4096, 128 + c.toNat / 64 % 64,
            128 + c.toNat % 64] = some c.toNat := by
          have e : (224 + c.toNat / 4096 - 224) * 4096 + (128 + c.toNat / 64 % 64 - 128) * 64 +
              (128 + c.toNat % 64 - 128) = c.toNat := by
            omega
          simp only [utf8CodePoint, isContinuation, e]
          rw [if_pos (by simp; omega)]
        have he2 := escapedOctet_escapeOctet (128 + c.toNat % 64) hb2 rest
        have he1 := escapedOctet_escapeOctet (128 + c.toNat / 64 % 64) hb1
          (escapeOctet (128 + c.toNat % 64) ++ rest)
        simp only [escapeOctet, List.cons_append, List.nil_append] at he1 he2
        simp only [h1, h2, h3, if_true, if_false, List.flatMap_cons, List.flatMap_nil,
          List.append_nil, escapeOctet, List.tail_cons, List.cons_append, List.nil_append,
          decodeEscape, parseHexOctet_hexDigits _ hb0, hs, List.drop_succ_cons, List.drop_zero,
          escapedOctets, he1, he2, hu, hc, List.length_cons, List.length_nil]
        rw [if_neg (by omega)]
      · have hb0 : 240 + c.toNat / 262144 < 256 := by omega
        have hb1 : 128 + c.toNat / 4096 % 64 < 256 := by omega
        have hb2 : 128 + c.toNat / 64 % 64 < 256 := by omega
        have hb3 : 128 + c.toNat % 64 < 256 := by omega
        have hs : sequenceLength (240 + c.toNat / 262144) = some 4 := by
          simp only [sequenceLength]
          rw [if_neg (by omega), if_neg (by omega), if_neg (by omega), if_pos (by omega)]
        have hu : utf8CodePoint [240 + c.toNat / 262144, 128 + c.toNat / 4096 % 64,
            128 + c.toNat / 64 % 64, 128 + c.toNat % 64] = some c.toNat := by
          have e : (240 + c.toNat / 262144 - 240) * 262144 +
              (128 + c.toNat / 4096 % 64 - 128) * 4096 + (128 + c.toNat / 64 % 64 - 128) * 64 +
              (128 + c.toNat % 64 - 128) = c.toNat := by
            omega
          simp only [utf8CodePoint, isContinuation, e]
          rw [if_pos (by simp; omega)]
        have he3 := escapedOctet_escapeOctet (128 + c.toNat % 64) hb3 rest
        have he2 := escapedOctet_escapeOctet (128 + c.toNat / 64 % 64) hb2
          (escapeOctet (128 + c.toNat % 64) ++ rest)
        have he1 := escapedOctet_escapeOctet (128 + c.toNat / 4096 % 64) hb1
          (escapeOctet (128 + c.toNat / 64 % 64) ++ escapeOctet (128 + c.toNat % 64) ++ rest)
        simp only [escapeOctet, List.cons_append, List.nil_append] at he1 he2 he3
        simp only [h1, h2, h3, if_true, if_false, List.flatMap_cons, List.flatMap_nil,
          List.append_nil, escapeOctet, List.tail_cons, List.cons_append, List.nil_append,
          decodeEscape, parseHexOctet_hexDigits _ hb0, hs, List.drop_succ_cons, List.drop_zero,
          escapedOctets, he1, he2, he3, hu, hc, List.length_cons, List.length_nil]
        rw [if_neg (by omega)]

theorem flatMap_escapeOctet_head (c : Char) :
    (utf8Octets c).flatMap escapeOctet =
      '%' :: ((utf8Octets c).flatMap escapeOctet).tail := by
  unfold utf8Octets
  split_ifs <;> simp [escapeOctet]

theorem decodeFrom_skip (xs ys : List Char) :
    decodeFrom (xs ++ ys) xs.length = decodeFrom ys 0 := by
  induction xs with
  | nil => rfl
  | cons x xs ih => simpa [decodeFrom] using ih

theorem except_map_map {ε α : Type} (f g : α → α) (x : Except ε α) :
    (x.map f).map g = x.map (fun r => g (f r)) := by
  cases x <;> rfl

theorem isUnreserved_ne_percent (c : Char) (h : isUnreserved c = true) : c ≠ '%' := by
  intro hc
  subst hc
  revert h
  decide

theorem decodeFrom_encodeURIComponent (p rest : List Char) :
    decodeFrom (encodeURIComponent p ++ rest) 0 =
      (decodeFrom rest 0).map (fun r => p ++ r) := by
  induction p with
  | nil =>
    rw [encodeURIComponent, List.nil_append]
    cases decodeFrom rest 0 <;> rfl
  | cons c cs ih =>
    by_cases hu : isUnreserved c = true
    · have hne := isUnreserved_ne_percent c hu
      rw [encodeURIComponent, if_pos hu, List.cons_append, decodeFrom, if_neg hne, ih,
        except_map_map]
      rfl
    · rw [encodeURIComponent, if_neg hu, flatMap_escapeOctet_head, List.cons_append,
        List.cons_append, decodeFrom, if_pos rfl, List.append_assoc,
        decodeEscape_utf8Octets]
      simp only [decodeFrom_skip, ih, except_map_map, List.cons_append]

theorem decodeFrom_of_no_percent (a rest : List Char) (h : ∀ c ∈ a, c ≠ '%') :
    decodeFrom (a ++ rest) 0 = (decodeFrom rest 0).map (fun r => a ++ r) := by
  induction a with
  | nil =>
    rw [List.nil_append]
    cases decodeFrom rest 0 <;> rfl
  | cons c cs ih =>
    have hc : c ≠ '%' := h c (by simp)
    have ih2 := ih (fun d hd => h d (by simp [hd]))
    rw [List.cons_append, decodeFrom, if_neg hc, ih2, except_map_map]
    rfl

theorem decodeURIComponent_of_no_percent (a : List Char) (h : ∀ c ∈ a, c ≠ '%') :
    decodeURIComponent a = Except.ok a := by
  have := decodeFrom_of_no_percent a [] h
  simpa [decodeURIComponent, decodeFrom, Except.map] using this

/-- Decoding undoes encoding: `decodeURIComponent (encodeURIComponent p) = p`. -/
theorem decodeURIComponent_encodeURIComponent (p : List Char) :
    decodeURIComponent (encodeURIComponent p) = Except.ok p := by
  have := decodeFrom_encodeURIComponent p []
  simpa [decodeURIComponent, decodeFrom, Except.map] using this

theorem parseHexOctet_append (cs rest : List Char) (v : Nat) (h : parseHexOctet cs = some v) :
    parseHexOctet (cs ++ rest) = some v ∧ 2 ≤ cs.length := by
  match cs, h with
  | c1 :: c2 :: tl, h =>
    refine ⟨?_, by simp⟩
    rw [parseHexOctet] at h
    rw [List.cons_append, List.cons_append, parseHexOctet]
    exact h

theorem escapedOctet_append (cs rest : List Char) (v : Nat) (h : escapedOctet cs = some v) :
    escapedOctet (cs ++ rest) = some v ∧ 3 ≤ cs.length := by
  match cs, h with
  | c :: tl, h =>
    rw [escapedOctet] at h
    by_cases hc : c = '%'
    · rw [if_pos hc] at h
      obtain ⟨h1, h2⟩ := parseHexOctet_append tl rest v h
      refine ⟨?_, by simp; omega⟩
      rw [List.cons_append, escapedOctet, if_pos hc]
      exact h1
    · rw [if_neg hc] at h
      cases h

theorem escapedOctets_append (n : Nat) (cs rest : List Char) (bs : List Nat)
    (h : escapedOctets n cs = some bs) :
    escapedOctets n (cs ++ rest) = some bs ∧ 3 * n ≤ cs.length := by
  induction n generalizing cs bs with
  | zero =>
    rw [escapedOctets] at h
    exact ⟨by rw [escapedOctets]; exact h, by simp⟩
  | succ k ih =>
    rw [escapedOctets] at h
    cases h1 : escapedOctet cs with
    | none => simp [h1] at h
    | some b =>
      cases h2 : escapedOctets k (cs.drop 3) with
      | none => simp [h1, h2] at h
      | some bs2 =>
        obtain ⟨e1, l1⟩ := escapedOctet_append cs rest b h1
        obtain ⟨e2, l2⟩ := ih (cs.drop 3) bs2 h2
        have hd : (cs ++ rest).drop 3 = cs.drop 3 ++ rest := by
          rw [List.drop_append_of_le_length l1]
        rw [List.length_drop] at l2
        refine ⟨?_, by omega⟩
        rw [escapedOctets, e1, hd, e2]
        simpa [h1, h2] using h

theorem decodeEscape_append (cs rest : List Char) (r : Char × Nat)
    (h : decodeEscape cs = some r) :
    decodeEscape (cs ++ rest) = some r ∧ r.2 ≤ cs.length := by
  unfold decodeEscape at h
  cases h1 : parseHexOctet cs with
  | none => simp [h1] at h
  | some b =>
    obtain ⟨e1, l1⟩ := parseHexOctet_append cs rest b h1
    simp only [h1] at h
    unfold decodeEscape
    simp only [e1]
    by_cases hb : b < 128
    · rw [if_pos hb] at h ⊢
      cases h
      exact ⟨rfl, l1⟩
    · rw [if_neg hb] at h ⊢
      cases h2 : sequenceLength b with
      | none => simp [h2] at h
      | some n =>
        simp only [h2] at h ⊢
        cases h3 : escapedOctets (n - 1) (cs.drop 2) with
        | none => simp [h3] at h
        | some bs =>
          obtain ⟨e3, l3⟩ := escapedOctets_append (n - 1) (cs.drop 2) rest bs h3
          have hd : (cs ++ rest).drop 2 = cs.drop 2 ++ rest := by
            rw [List.drop_append_of_le_length l1]
          rw [List.length_drop] at l3
          simp only [h3] at h
          simp only [hd, e3]
          cases h4 : utf8CodePoint (b :: bs) with
          | none => simp [h4] at h
          | some v =>
            simp only [h4] at h ⊢
            cases h
            exact ⟨rfl, by simp only; omega⟩

theorem decodeFrom_append (a rest : List Char) (k : Nat) (a2 : List Char)
    (hk : k ≤ a.length) (h : decodeFrom a k = Except.ok a2) :
    decodeFrom (a ++ rest) k = (decodeFrom rest 0).map (fun r => a2 ++ r) := by
  induction a generalizing k a2 with
  | nil =>
    have hk0 : k = 0 := by simpa using hk
    subst hk0
    rw [decodeFrom] at h
    cases h
    rw [List.nil_append]
    cases decodeFrom rest 0 <;> rfl
  | cons c cs ih =>
    cases k with
    | succ j =>
      rw [decodeFrom] at h
      rw [List.cons_append, decodeFrom]
      exact ih j a2 (by simpa using hk) h
    | zero =>
      rw [decodeFrom] at h
      rw [List.cons_append, decodeFrom]
      by_cases hc : c = '%'
      · rw [if_pos hc] at h ⊢
        cases he : decodeEscape cs with
        | none => simp [he] at h
        | some r =>
          obtain ⟨ch, taken⟩ := r
          obtain ⟨e1, l1⟩ := decodeEscape_append cs rest (ch, taken) he
          simp only [he] at h
          simp only [e1]
          cases hr : decodeFrom cs taken with
          | error e => simp [hr, Except.map] at h
          | ok r2 =>
            rw [hr] at h
            simp only [Except.map, Except.ok.injEq] at h
            subst h
            rw [ih taken r2 l1 hr, except_map_map]
            rfl
      · rw [if_neg hc] at h ⊢
        cases hr : decodeFrom cs 0 with
        | error e => simp [hr, Except.map] at h
        | ok r2 =>
          rw [hr] at h
          simp only [Except.map, Except.ok.injEq] at h
          subst h
          rw [ih 0 r2 (by simp) hr, except_map_map]
          rfl

theorem lazyUntilQuestion_append (mid post : List Char)
    (h : ∀ c ∈ mid, c ≠ '?' ∧ isLineTerminator c = false) :
    lazyUntilQuestion (mid ++ '?' :: post) = some mid := by
  induction mid with
  | nil => simp [lazyUntilQuestion]
  | cons c cs ih =>
    obtain ⟨hq, hl⟩ := h c (by simp)
    have ih2 := ih (fun d hd => h d (by simp [hd]))
    simp [lazyUntilQuestion, hq, hl, ih2]

theorem lazyUntilQuestion_some (s m : List Char) (h : lazyUntilQuestion s = some m) :
    ∃ post, s = m ++ '?' :: post := by
  induction s generalizing m with
  | nil => simp [lazyUntilQuestion] at h
  | cons c cs ih =>
    rw [lazyUntilQuestion] at h
    by_cases hq : c = '?'
    · rw [if_pos hq] at h
      cases h
      exact ⟨cs, by simp [hq]⟩
    · rw [if_neg hq] at h
      by_cases hl : isLineTerminator c = true
      · rw [if_pos hl] at h
        cases h
      · rw [if_neg hl] at h
        cases hr : lazyUntilQuestion cs with
        | none => rw [hr] at h; cases h
        | some m2 =>
          rw [hr] at h
          cases h
          obtain ⟨post, hp⟩ := ih m2 hr
          exact ⟨post, by simp [hp]⟩

theorem matchAtHead_some (s m : List Char) (h : matchAtHead s = some m) :
    ∃ post, s = '/' :: 'o' :: '/' :: (m ++ '?' :: post) := by
  match s, h with
  | c1 :: c2 :: c3 :: rest, h =>
    rw [matchAtHead] at h
    by_cases hc : c1 = '/' ∧ c2 = 'o' ∧ c3 = '/'
    · rw [if_pos hc] at h
      obtain ⟨post, hp⟩ := lazyUntilQuestion_some rest m h
      obtain ⟨h1, h2, h3⟩ := hc
      exact ⟨post, by rw [h1, h2, h3, hp]⟩
    · rw [if_neg hc] at h
      cases h

/-- A match of the pattern exhibits the marker `/o/` followed later by `?`. -/
theorem regexMatch_some (s m : List Char) (h : regexMatch s = some m) :
    ∃ pre post, s = pre ++ '/' :: 'o' :: '/' :: (m ++ '?' :: post) := by
  induction s with
  | nil => simp [regexMatch] at h
  | cons c cs ih =>
    rw [regexMatch] at h
    cases hm : matchAtHead (c :: cs) with
    | some m2 =>
      rw [hm] at h
      cases h
      obtain ⟨post, hp⟩ := matchAtHead_some _ _ hm
      exact ⟨[], post, by simpa using hp⟩
    | none =>
      rw [hm] at h
      obtain ⟨pre, post, hp⟩ := ih h
      exact ⟨c :: pre, post, by simp [hp]⟩

theorem matchAtHead_prefix_none (c : Char) (cs rest : List Char)
    (h : containsMarker (c :: cs ++ ['/', 'o']) = false) :
    matchAtHead (c :: cs ++ '/' :: 'o' :: '/' :: rest) = none := by
  match cs, h with
  | [], h =>
    simp [matchAtHead]
  | [d], h =>
    have : ¬ (c = '/' ∧ d = 'o') := by
      simpa [containsMarker] using h
    simp only [List.cons_append, List.nil_append, matchAtHead]
    split_ifs with hc
    · exact absurd ⟨hc.1, hc.2.1⟩ this
    · rfl
  | d :: e :: tl, h =>
    have : ¬ (c = '/' ∧ d = 'o' ∧ e = '/') := by
      intro hc
      simp [containsMarker, hc] at h
    simp only [List.cons_append, matchAtHead]
    rw [if_neg this]

theorem regexMatch_after_pre (pre rest m : List Char)
    (h : containsMarker (pre ++ ['/', 'o']) = false)
    (hm : lazyUntilQuestion rest = some m) :
    regexMatch (pre ++ '/' :: 'o' :: '/' :: rest) = some m := by
  induction pre with
  | nil => simp [regexMatch, matchAtHead, hm]
  | cons c cs ih =>
    have htail : containsMarker (cs ++ ['/', 'o']) = false := by
      have h2 := h
      rw [List.cons_append, containsMarker, Bool.or_eq_false_iff] at h2
      exact h2.2
    rw [List.cons_append, regexMatch, ← List.cons_append, matchAtHead_prefix_none c cs rest h]
    exact ih htail

theorem containsMarker_append (a rest : List Char) :
    containsMarker (a ++ '/' :: 'o' :: '/' :: rest) = true := by
  induction a with
  | nil => simp [containsMarker]
  | cons c cs ih =>
    rw [List.cons_append, containsMarker, ih, Bool.or_true]

theorem no_marker_of_containsMarker (s : List Char) (h : containsMarker s = false) :
    ¬ ∃ a mid b, s = a ++ '/' :: 'o' :: '/' :: (mid ++ '?' :: b) := by
  rintro ⟨a, mid, b, rfl⟩
  rw [containsMarker_append] at h
  cases h

theorem filePath_of_encoded (pre pre2 p query query2 : List Char)
    (hp : ∀ c ∈ p, c ≠ '%' ∧ c ≠ '?' ∧ isLineTerminator c = false)
    (hpre : decodeURIComponent pre = Except.ok pre2)
    (hmarker : containsMarker (pre2 ++ ['/', 'o']) = false)
    (hquery : decodeURIComponent query = Except.ok query2) :
    filePath (pre ++ '/' :: 'o' :: '/' :: (encodeURIComponent p ++ '?' :: query)) =
      Except.ok p := by
  have hdec : decodeURIComponent
      (pre ++ '/' :: 'o' :: '/' :: (encodeURIComponent p ++ '?' :: query)) =
      Except.ok (pre2 ++ '/' :: 'o' :: '/' :: (p ++ '?' :: query2)) := by
    have hq : decodeFrom ('?' :: query) 0 = Except.ok ('?' :: query2) := by
      have := decodeFrom_of_no_percent ['?'] query (by decide)
      rw [show decodeFrom query 0 = Except.ok query2 from hquery] at this
      simpa [Except.map] using this
    have hmid : decodeFrom ('/' :: 'o' :: '/' :: (encodeURIComponent p ++ '?' :: query)) 0 =
        Except.ok ('/' :: 'o' :: '/' :: (p ++ '?' :: query2)) := by
      have := decodeFrom_of_no_percent ['/', 'o', '/'] (encodeURIComponent p ++ '?' :: query)
        (by decide)
      rw [decodeFrom_encodeURIComponent, hq] at this
      simpa [Except.map] using this
    rw [decodeURIComponent, decodeFrom_append pre _ 0 pre2 (Nat.zero_le _) hpre, hmid]
    rfl
  have hre : regexMatch (pre2 ++ '/' :: 'o' :: '/' :: (p ++ '?' :: query2)) = some p :=
    regexMatch_after_pre pre2 _ p hmarker
      (lazyUntilQuestion_append p query2 (fun c hc => (hp c hc).2))
  rw [filePath, hdec]
  simp only [hre]
  exact decodeURIComponent_of_no_percent p (fun c hc => (hp c hc).1)

theorem filePath_of_no_marker (imageUrl decodedUrl : List Char)
    (hdec : decodeURIComponent imageUrl = Except.ok decodedUrl)
    (hno : ¬ ∃ pre mid post, decodedUrl = pre ++ '/' :: 'o' :: '/' :: (mid ++ '?' :: post)) :
    filePath imageUrl = Except.error (JSError.error "Invalid imageUrl format") := by
  have hre : regexMatch decodedUrl = none := by
    cases hr : regexMatch decodedUrl with
    | none => rfl
    | some m =>
      obtain ⟨pre, post, hp⟩ := regexMatch_some decodedUrl m hr
      exact absurd ⟨pre, m, post, hp⟩ hno
  rw [filePath, hdec]
  simp only [hre]

/-- C7, counterexample: for the storage path `uploads/a%20b.jpg` the URL
`https://host/v0/b/bucket/o/` + `encodeURIComponent(path)` + `?alt=media` resolves to the
different path `uploads/a b.jpg`, and for `uploads/what?.jpg` to `uploads/what`. -/
theorem filePath_double_decoding_changes_path :
    encodeURIComponent "uploads/a%20b.jpg".toList = "uploads%2Fa%2520b.jpg".toList ∧
    filePath ("https://host/v0/b/bucket".toList ++ '/' :: 'o' :: '/' ::
        (encodeURIComponent "uploads/a%20b.jpg".toList ++ '?' :: "alt=media".toList)) =
      Except.ok "uploads/a b.jpg".toList ∧
    "uploads/a b.jpg".toList ≠ "uploads/a%20b.jpg".toList ∧
    filePath ("https://host/v0/b/bucket".toList ++ '/' :: 'o' :: '/' ::
        (encodeURIComponent "uploads/what?.jpg".toList ++ '?' :: "alt=media".toList)) =
      Except.ok "uploads/what".toList ∧
    "uploads/what".toList ≠ "uploads/what?.jpg".toList :=
  ⟨rfl, rfl, by decide, rfl, by decide⟩

/-- Other URLs of the claimed form that do not resolve to the path: a path with a line feed and
a path with a lone `%` fail, a `/o/` inside the part before the marker shifts the path, and a
malformed escape in the query makes the first decoding fail. -/
theorem filePath_other_failures :
    filePath ("https://host/v0/b/bucket".toList ++ '/' :: 'o' :: '/' ::
        (encodeURIComponent ['a', Char.ofNat 10, 'b'] ++ '?' :: "alt=media".toList)) =
      Except.error (JSError.error "Invalid imageUrl format") ∧
    filePath ("https://host/v0/b/bucket".toList ++ '/' :: 'o' :: '/' ::
        (encodeURIComponent "uploads/100%.jpg".toList ++ '?' :: "alt=media".toList)) =
      Except.error JSError.uriError ∧
    filePath ("https://host/o/v0/b/bucket".toList ++ '/' :: 'o' :: '/' ::
        (encodeURIComponent "uploads/abc.jpg".toList ++ '?' :: "alt=media".toList)) =
      Except.ok "v0/b/bucket/o/uploads/abc.jpg".toList ∧
    filePath ("https://host/v0/b/bucket".toList ++ '/' :: 'o' :: '/' ::
        (encodeURIComponent "uploads/abc.jpg".toList ++ '?' :: "alt=media&x=%".toList)) =
      Except.error JSError.uriError :=
  ⟨rfl, rfl, rfl, rfl⟩

/-- C7, amended: for every storage path `p` without `%`, `?` and line terminators, and every
URL `pre ++ "/o/" ++ encodeURIComponent p ++ "?" ++ query` whose `pre` and `query` are
decodable and in which no `/o/` starts inside the decoded `pre`, the path handed to storage is
exactly `p`, obtained by decoding twice; and for every URL whose decoded form does not hold
`/o/` followed later by `?`, resolution fails with `Error("Invalid imageUrl format")`, no path
is produced and storage is not reached. -/
theorem downloadImageBuffer_resolution {β : Type} (download : List Char → Except JSError β)
    (pre pre2 p query query2 : List Char)
    (hp : ∀ c ∈ p, c ≠ '%' ∧ c ≠ '?' ∧ isLineTerminator c = false)
    (hpre : decodeURIComponent pre = Except.ok pre2)
    (hmarker : containsMarker (pre2 ++ ['/', 'o']) = false)
    (hquery : decodeURIComponent query = Except.ok query2)
    (imageUrl decodedUrl : List Char)
    (hdec : decodeURIComponent imageUrl = Except.ok decodedUrl)
    (hno : ¬ ∃ a mid b, decodedUrl = a ++ '/' :: 'o' :: '/' :: (mid ++ '?' :: b)) :
    (filePath (pre ++ '/' :: 'o' :: '/' :: (encodeURIComponent p ++ '?' :: query)) =
        Except.ok p ∧
      downloadImageBuffer download
          (pre ++ '/' :: 'o' :: '/' :: (encodeURIComponent p ++ '?' :: query)) =
        download p) ∧
    (filePath imageUrl = Except.error (JSError.error "Invalid imageUrl format") ∧
      downloadImageBuffer download imageUrl =
        Except.error (JSError.error "Invalid imageUrl format")) := by
  have h1 := filePath_of_encoded pre pre2 p query query2 hp hpre hmarker hquery
  have h2 := filePath_of_no_marker imageUrl decodedUrl hdec hno
  refine ⟨⟨h1, ?_⟩, ⟨h2, ?_⟩⟩
  · simp only [downloadImageBuffer, h1]
  · simp only [downloadImageBuffer, h2]

theorem downloadImageBuffer_resolution_witness :
    (filePath ("https://host/v0/b/bucket".toList ++ '/' :: 'o' :: '/' ::
          (encodeURIComponent "uploads/abc.jpg".toList ++ '?' :: "alt=media&n=a%20b".toList)) =
        Except.ok "uploads/abc.jpg".toList ∧
      downloadImageBuffer (fun path => (Except.ok path.length : Except JSError Nat))
          ("https://host/v0/b/bucket".toList ++ '/' :: 'o' :: '/' ::
            (encodeURIComponent "uploads/abc.jpg".toList ++ '?' ::
              "alt=media&n=a%20b".toList)) =
        Except.ok 15) ∧
    (filePath "https://host/uploads/abc.jpg".toList =
        Except.error (JSError.error "Invalid imageUrl format") ∧
      downloadImageBuffer (fun path => (Except.ok path.length : Except JSError Nat))
          "https://host/uploads/abc.jpg".toList =
        Except.error (JSError.error "Invalid imageUrl format")) :=
  downloadImageBuffer_resolution (fun path => (Except.ok path.length : Except JSError Nat))
    "https://host/v0/b/bucket".toList "https://host/v0/b/bucket".toList
    "uploads/abc.jpg".toList "alt=media&n=a%20b".toList "alt=media&n=a b".toList
    (by decide) rfl (by decide) rfl
    "https://host/uploads/abc.jpg".toList "https://host/uploads/abc.jpg".toList rfl
    (no_marker_of_containsMarker _ (by decide))

end FinderAI
